import Mathlib

/-!
# Verification of the MLEAIMT kernel-services simulator

Shallow embedding of the two core components of the repository:

* `src/memory_pool.hpp` — the first-fit block allocator (`MemoryPool`), and
* `src/device_driver.hpp` — the bounded device request queue (`DeviceDriver`),

together with theorems settling the specification's claims about them.

Machine integers (`size_t`) are modelled as `Nat` with explicit reduction
modulo `2^64` at every point where the C++ performs wrapping unsigned
arithmetic.  Raw pointers into the pool buffer are modelled as byte offsets
(`Nat`), with `Option Nat` standing for a possibly-null `void*`
(`none` = `nullptr`).  The `double` returned by `fragmentation_ratio` is
modelled as a rational number.
-/

namespace MemoryPool

/-- Width of `size_t` on the reference 64-bit platform: values wrap mod `W`. -/
def W : Nat := 2 ^ 64

/-- `sizeof(MemoryBlock)` on the reference LP64 platform: `size_t` (8 bytes),
`bool` padded to 8, `char*` (8 bytes).  Used as the split threshold in
`allocate` (`block.size > size + sizeof(MemoryBlock)`). -/
def sizeofMemoryBlock : Nat := 24

/-- One `MemoryBlock` metadata record: `size` in bytes, allocation flag, and
the block's data pointer represented as its byte offset from `pool`. -/
structure MemoryBlock where
  size : Nat
  is_allocated : Bool
  off : Nat
  deriving DecidableEq, Repr

/-- The `MemoryPool` object state: the metadata vector `blocks` (in vector
order, which is the allocator's traversal order), the pool capacity
`total_size`, and the running counter `used_size`. -/
structure State where
  blocks : List MemoryBlock
  total_size : Nat
  used_size : Nat
  deriving DecidableEq, Repr

/-- `MemoryPool::MemoryPool(size)`: one free block spanning the whole pool. -/
def init (size : Nat) : State :=
  { blocks := [⟨size, false, 0⟩], total_size := size, used_size := 0 }

/-- Unsigned wrapping subtraction modulo `W` (C++ `a - b` on `size_t`
operands already reduced below `W`). -/
def wrapSub (a b : Nat) : Nat := (a + (W - b % W)) % W

/-- The first-fit scan of `MemoryPool::allocate`: find the first block with
`!block.is_allocated && block.size >= size`, returning the blocks before it,
the block itself, and the blocks after it. -/
def firstFit : List MemoryBlock → Nat → Option (List MemoryBlock × MemoryBlock × List MemoryBlock)
  | [], _ => none
  | b :: rest, n =>
    if b.is_allocated = false ∧ n ≤ b.size then
      some ([], b, rest)
    else
      match firstFit rest n with
      | none => none
      | some (pre, f, suf) => some (b :: pre, f, suf)

/-- `MemoryPool::allocate(size)`.  Returns the C++ result — `.error ()` for a
thrown `std::bad_alloc`, `.ok none` for the `nullptr` returned on `size == 0`,
`.ok (some off)` for a data pointer at offset `off` — paired with the state
after the call (the state is unchanged when the function throws, since the
loop mutates nothing before a fit is found).  On a fit, the block is split
when `block.size > size + sizeof(MemoryBlock)`, with the remainder block
appended by `push_back` at the end of the vector; then the found block is
marked allocated and `used_size += block.size` (the post-split size). -/
def allocate (s : State) (n : Nat) : Except Unit (Option Nat) × State :=
  if n = 0 then (.ok none, s)
  else
    match firstFit s.blocks n with
    | none => (.error (), s)
    | some (pre, b, suf) =>
      if (n + sizeofMemoryBlock) % W < b.size then
        -- split: shrink the found block to `n`, push the remainder at the back
        let remaining := b.size - n
        let blocks' := (pre ++ ⟨n, true, b.off⟩ :: suf) ++ [⟨remaining, false, b.off + n⟩]
        (.ok (some b.off), { s with blocks := blocks', used_size := (s.used_size + n) % W })
      else
        let blocks' := pre ++ ⟨b.size, true, b.off⟩ :: suf
        (.ok (some b.off), { s with blocks := blocks', used_size := (s.used_size + b.size) % W })

/-- The mutation `deallocate` applies at the matched block `b` given the
vector elements `rest` that follow it: mark `b` free (`it->is_allocated =
false`), then, when the next element exists and is free, absorb it
(`it->size += next->size; blocks.erase(next)` — unsigned addition mod `W`). -/
def freeAndMerge (b : MemoryBlock) : List MemoryBlock → List MemoryBlock
  | [] => [⟨b.size, false, b.off⟩]
  | next :: rest =>
    if next.is_allocated then ⟨b.size, false, b.off⟩ :: next :: rest
    else ⟨(b.size + next.size) % W, false, b.off⟩ :: rest

/-- The find-and-free core of `MemoryPool::deallocate`: locate the first block
whose data pointer equals `ptr` (`std::find_if`), apply `freeAndMerge` there.
Returns the new list and the matched block's (pre-merge) size — the amount
`used_size` is decremented by — or `none` when no block matches. -/
def deallocGo : List MemoryBlock → Nat → Option (List MemoryBlock × Nat)
  | [], _ => none
  | b :: rest, p =>
    if b.off = p then some (freeAndMerge b rest, b.size)
    else
      match deallocGo rest p with
      | none => none
      | some (rest2, freed) => some (b :: rest2, freed)

/-- `MemoryPool::deallocate(ptr)`: null pointers and unmatched pointers are
no-ops; otherwise the first matching block is freed, `used_size -= it->size`
(wrapping unsigned subtraction), and a free next vector element is absorbed. -/
def deallocate (s : State) (ptr : Option Nat) : State :=
  match ptr with
  | none => s
  | some p =>
    match deallocGo s.blocks p with
    | none => s
    | some (bs, freed) =>
      { s with blocks := bs, used_size := wrapSub s.used_size freed }

/-- The scan of `MemoryPool::fragmentation_ratio` that computes
`largest_free_block`: a front-to-back running maximum over the free blocks,
threaded through the accumulator exactly as the C++ loop threads the local
variable. -/
def largestFreeAux : Nat → List MemoryBlock → Nat
  | acc, [] => acc
  | acc, b :: rest =>
    largestFreeAux (if b.is_allocated = false ∧ acc < b.size then b.size else acc) rest

/-- `largest_free_block` starting from `0` as in the source. -/
def largestFree (bs : List MemoryBlock) : Nat := largestFreeAux 0 bs

/-- `MemoryPool::fragmentation_ratio()`: `1 - largest_free/total_free` when
`total_free > 0`, else `0`.  The C++ `double` is modelled as `ℚ`. -/
def fragmentation_ratio (s : State) : ℚ :=
  let total_free := wrapSub s.total_size s.used_size
  let largest_free_block := largestFree s.blocks
  if 0 < total_free then 1 - (largest_free_block : ℚ) / (total_free : ℚ) else 0

/-- Decidable equality for `allocate`'s result type, so that concrete runs of
the allocator can be checked by evaluation. -/
instance : DecidableEq (Except Unit (Option Nat)) := fun x y =>
  match x, y with
  | .ok a, .ok b =>
    match decEq a b with
    | isTrue h => isTrue (h ▸ rfl)
    | isFalse h => isFalse fun hc => h (Except.ok.inj hc)
  | .ok _, .error _ => isFalse fun hc => Except.noConfusion hc
  | .error _, .ok _ => isFalse fun hc => Except.noConfusion hc
  | .error a, .error b => isTrue (by cases a; cases b; rfl)

/-! ## Specification-side predicates -/

/-- Blocks `a` and `b` have non-overlapping byte ranges. -/
def rangesDisjoint (a b : MemoryBlock) : Prop :=
  a.off + a.size ≤ b.off ∨ b.off + b.size ≤ a.off

instance : DecidableRel rangesDisjoint := fun _ _ =>
  inferInstanceAs (Decidable (_ ∨ _))

/-- The spec's partition invariant (§8, invariant 1): every block lies within
`[0, C)`, no two block ranges overlap, and the block ranges cover `[0, C)`. -/
def partitionInvariant (s : State) : Prop :=
  (∀ b ∈ s.blocks, b.off + b.size ≤ s.total_size) ∧
  s.blocks.Pairwise rangesDisjoint ∧
  (∀ x < s.total_size, ∃ b ∈ s.blocks, b.off ≤ x ∧ x < b.off + b.size)

instance (s : State) : Decidable (partitionInvariant s) :=
  inferInstanceAs (Decidable ((∀ b ∈ s.blocks, b.off + b.size ≤ s.total_size) ∧
    s.blocks.Pairwise rangesDisjoint ∧
    (∀ x < s.total_size, ∃ b ∈ s.blocks, b.off ≤ x ∧ x < b.off + b.size)))

/-- One of `a`, `b` is allocated — the relation whose chain states the spec's
relaxed coalescing invariant. -/
def notBothFree (a b : MemoryBlock) : Prop :=
  a.is_allocated = true ∨ b.is_allocated = true

instance : DecidableRel notBothFree := fun _ _ =>
  inferInstanceAs (Decidable (_ ∨ _))

/-- The spec's relaxed coalescing invariant (§8, invariant 3): no block is
followed, in traversal (vector) order, by a successor such that both it and
the successor are free. -/
def noFreeFreeSucc : List MemoryBlock → Prop
  | [] => True
  | [_] => True
  | a :: b :: rest => notBothFree a b ∧ noFreeFreeSucc (b :: rest)

def decNoFreeFreeSucc : (bs : List MemoryBlock) → Decidable (noFreeFreeSucc bs)
  | [] => isTrue trivial
  | [_] => isTrue trivial
  | _ :: b :: rest => @instDecidableAnd _ _ (inferInstance) (decNoFreeFreeSucc (b :: rest))

instance (bs : List MemoryBlock) : Decidable (noFreeFreeSucc bs) :=
  decNoFreeFreeSucc bs

/-- Total number of free bytes actually present in the block list: the sum of
the lengths of the free blocks. -/
def sumFree : List MemoryBlock → Nat
  | [] => 0
  | b :: rest => (if b.is_allocated = false then b.size else 0) + sumFree rest

/-! ## Lemmas about the first-fit scan -/

/-- The scan returns `none` exactly when no block is both free and large
enough. -/
theorem firstFit_eq_none_iff (bs : List MemoryBlock) (n : Nat) :
    firstFit bs n = none ↔ ∀ b ∈ bs, ¬(b.is_allocated = false ∧ n ≤ b.size) := by
  induction bs with
  | nil => simp [firstFit]
  | cons b rest ih =>
    by_cases h : b.is_allocated = false ∧ n ≤ b.size
    · simp only [firstFit, if_pos h, List.mem_cons]
      constructor
      · intro hc; cases hc
      · intro hall; exact absurd h (hall b (Or.inl rfl))
    · simp only [firstFit, if_neg h, List.mem_cons]
      cases hf : firstFit rest n with
      | none =>
        constructor
        · intro _ b' hb'
          rcases hb' with rfl | hb'
          · exact h
          · exact (ih.mp hf) b' hb'
        · intro _; rfl
      | some v =>
        constructor
        · intro hc; cases hc
        · intro hall
          have hnone : firstFit rest n = none :=
            ih.mpr fun b' hb' => hall b' (Or.inr hb')
          rw [hnone] at hf; cases hf

/-- What a successful scan returns: a decomposition of the list around the
first free block that fits. -/
theorem firstFit_eq_some (bs : List MemoryBlock) (n : Nat) (pre : List MemoryBlock)
    (b : MemoryBlock) (suf : List MemoryBlock) (h : firstFit bs n = some (pre, b, suf)) :
    bs = pre ++ b :: suf ∧ b.is_allocated = false ∧ n ≤ b.size ∧
      ∀ a ∈ pre, ¬(a.is_allocated = false ∧ n ≤ a.size) := by
  induction bs generalizing pre with
  | nil => cases h
  | cons hd rest ih =>
    by_cases hhd : hd.is_allocated = false ∧ n ≤ hd.size
    · simp only [firstFit, if_pos hhd, Option.some.injEq, Prod.mk.injEq] at h
      obtain ⟨hpre, hb, hsuf⟩ := h
      subst hpre; subst hb; subst hsuf
      exact ⟨rfl, hhd.1, hhd.2, by simp⟩
    · simp only [firstFit, if_neg hhd] at h
      cases hf : firstFit rest n with
      | none => rw [hf] at h; cases h
      | some v =>
        obtain ⟨pre', b', suf'⟩ := v
        rw [hf, Option.some.injEq, Prod.mk.injEq, Prod.mk.injEq] at h
        obtain ⟨hpre, hb, hsuf⟩ := h
        subst hb; subst hsuf
        obtain ⟨hdec, hfree, hsize, hallpre⟩ := ih pre' hf
        refine ⟨?_, hfree, hsize, ?_⟩
        · rw [← hpre, hdec]; rfl
        · intro a ha
          rw [← hpre] at ha
          rcases List.mem_cons.mp ha with rfl | ha'
          · exact hhd
          · exact hallpre a ha'

/-- Converse direction: a decomposition around the first fitting free block
determines the scan's result. -/
theorem firstFit_of_decomp (pre : List MemoryBlock) (b : MemoryBlock)
    (suf : List MemoryBlock) (n : Nat)
    (hpre : ∀ a ∈ pre, ¬(a.is_allocated = false ∧ n ≤ a.size))
    (hfree : b.is_allocated = false) (hsize : n ≤ b.size) :
    firstFit (pre ++ b :: suf) n = some (pre, b, suf) := by
  induction pre with
  | nil => simp [firstFit, if_pos (And.intro hfree hsize)]
  | cons a pre' ih =>
    have ha : ¬(a.is_allocated = false ∧ n ≤ a.size) := hpre a (List.mem_cons_self a pre')
    have ih' := ih fun x hx => hpre x (List.mem_cons_of_mem a hx)
    simp [firstFit, if_neg ha, ih']

/-! ## Lemmas about the deallocation scan -/

/-- `std::find_if` finds nothing exactly when no block's data pointer matches. -/
theorem deallocGo_eq_none_iff (bs : List MemoryBlock) (p : Nat) :
    deallocGo bs p = none ↔ ∀ b ∈ bs, b.off ≠ p := by
  induction bs with
  | nil => simp [deallocGo]
  | cons b rest ih =>
    by_cases h : b.off = p
    · simp only [deallocGo, if_pos h, List.mem_cons]
      constructor
      · intro hc; cases hc
      · intro hall; exact absurd h (hall b (Or.inl rfl))
    · simp only [deallocGo, if_neg h, List.mem_cons]
      cases hf : deallocGo rest p with
      | none =>
        constructor
        · intro _ b' hb'
          rcases hb' with rfl | hb'
          · exact h
          · exact (ih.mp hf) b' hb'
        · intro _; rfl
      | some v =>
        constructor
        · intro hc; cases hc
        · intro hall
          have hnone : deallocGo rest p = none :=
            ih.mpr fun b' hb' => hall b' (Or.inr hb')
          rw [hnone] at hf; cases hf

/-- When the first matching block is `b`, the scan frees `b`, merges it with a
free following element, and reports `b`'s pre-merge size. -/
theorem deallocGo_of_decomp (pre : List MemoryBlock) (b : MemoryBlock)
    (suf : List MemoryBlock) (p : Nat)
    (hpre : ∀ a ∈ pre, a.off ≠ p) (hb : b.off = p) :
    deallocGo (pre ++ b :: suf) p = some (pre ++ freeAndMerge b suf, b.size) := by
  induction pre with
  | nil => simp [deallocGo, if_pos hb]
  | cons a pre' ih =>
    have ha : a.off ≠ p := hpre a (List.mem_cons_self a pre')
    have ih' := ih fun x hx => hpre x (List.mem_cons_of_mem a hx)
    simp [deallocGo, if_neg ha, ih']

/-! ## Claim theorems for the allocator -/

/-- C8: `allocate(0)` returns a null reference and performs no state change:
the returned pointer is `nullptr` and the state — block list, `used_size`,
and hence the free count — is exactly the state before the call. -/
theorem allocate_zero_noop (s : State) : allocate s 0 = (Except.ok none, s) := by
  simp [allocate]

/-- C9: `deallocate(nullptr)` is a no-op, and `deallocate` of a pointer whose
offset matches no block's data pointer is a silent no-op: in both cases the
state (blocks, `used_size`, free count) is returned unchanged. -/
theorem deallocate_null_unknown_noop (s : State) :
    deallocate s none = s ∧
    ∀ p, (∀ b ∈ s.blocks, b.off ≠ p) → deallocate s (some p) = s := by
  refine ⟨rfl, ?_⟩
  intro p hp
  unfold deallocate
  dsimp only
  rw [(deallocGo_eq_none_iff s.blocks p).mpr hp]

/-- Witness for C9 at a concrete input: the fresh 100-byte pool, a null
pointer, and the unmatched offset `7`. -/
theorem deallocate_null_unknown_noop_witness :
    deallocate (init 100) none = init 100 ∧ deallocate (init 100) (some 7) = init 100 := by
  obtain ⟨h1, h2⟩ := deallocate_null_unknown_noop (init 100)
  exact ⟨h1, h2 7 (by decide)⟩

/-- C10: `deallocate` does not check the allocation status of the matched
block.  Whenever `b` is the first block whose data pointer equals `p` —
with no hypothesis at all on `b.is_allocated` — the call decrements
`used_size` by `b.size` with wrapping subtraction modulo `2^64`, rewrites the
tail according to `freeAndMerge` (possibly coalescing with a free successor),
and the block at `b`'s position ends up marked free. -/
theorem deallocate_ignores_status (s : State) (p : Nat) (pre : List MemoryBlock)
    (b : MemoryBlock) (suf : List MemoryBlock)
    (hdec : s.blocks = pre ++ b :: suf) (hpre : ∀ a ∈ pre, a.off ≠ p) (hb : b.off = p) :
    (deallocate s (some p)).used_size = wrapSub s.used_size b.size ∧
    (deallocate s (some p)).blocks = pre ++ freeAndMerge b suf ∧
    ∃ blk, (deallocate s (some p)).blocks[pre.length]? = some blk ∧
      blk.is_allocated = false ∧ blk.off = b.off := by
  have hgo := deallocGo_of_decomp pre b suf p hpre hb
  unfold deallocate
  dsimp only
  rw [hdec, hgo]
  refine ⟨rfl, rfl, ?_⟩
  have hhead : ∃ blk rest2, freeAndMerge b suf = blk :: rest2 ∧
      blk.is_allocated = false ∧ blk.off = b.off := by
    cases suf with
    | nil => exact ⟨⟨b.size, false, b.off⟩, [], rfl, rfl, rfl⟩
    | cons nx rest =>
      by_cases hnx : nx.is_allocated
      · exact ⟨⟨b.size, false, b.off⟩, nx :: rest, by simp [freeAndMerge, hnx], rfl, rfl⟩
      · exact ⟨⟨(b.size + nx.size) % W, false, b.off⟩, rest, by simp [freeAndMerge, hnx], rfl, rfl⟩
  obtain ⟨blk, rest2, hfm, hfree, hoff⟩ := hhead
  refine ⟨blk, ?_, hfree, hoff⟩
  rw [hfm, List.getElem?_append_right (Nat.le_refl pre.length), Nat.sub_self]
  simp

/-- Witness for C10 at a concrete input: deallocating offset `0` of a fresh
100-byte pool whose single block is *already free* still marks it free and
wraps `used_size` from `0` down to `2^64 - 100`. -/
theorem deallocate_ignores_status_witness :
    (deallocate ⟨[⟨100, false, 0⟩], 100, 0⟩ (some 0)).used_size = wrapSub 0 100 ∧
    (deallocate ⟨[⟨100, false, 0⟩], 100, 0⟩ (some 0)).blocks =
      [] ++ freeAndMerge ⟨100, false, 0⟩ [] ∧
    ∃ blk, (deallocate ⟨[⟨100, false, 0⟩], 100, 0⟩ (some 0)).blocks[(0 : Nat)]? = some blk ∧
      blk.is_allocated = false ∧ blk.off = 0 :=
  deallocate_ignores_status ⟨[⟨100, false, 0⟩], 100, 0⟩ 0 [] ⟨100, false, 0⟩ []
    rfl (by decide) rfl

/-- C4: for every `n > 0`, `allocate(n)` throws `std::bad_alloc`
(`OutOfMemory`) exactly when no free block of length ≥ `n` exists; on such a
failure the whole state (blocks, `used_size`, free count) is unchanged; and
whenever a free block of length ≥ `n` does exist, the call returns a
non-null pointer that is the data pointer of a block that was free with
length ≥ `n` before the call and carries an allocated block afterwards. -/
theorem allocate_oom_characterization (s : State) (n : Nat) (hn : 0 < n) :
    ((allocate s n).1 = .error () ↔ ∀ b ∈ s.blocks, ¬(b.is_allocated = false ∧ n ≤ b.size)) ∧
    ((allocate s n).1 = .error () → (allocate s n).2 = s) ∧
    ((∃ b ∈ s.blocks, b.is_allocated = false ∧ n ≤ b.size) →
      ∃ off, (allocate s n).1 = .ok (some off) ∧
        (∃ b ∈ s.blocks, b.is_allocated = false ∧ n ≤ b.size ∧ b.off = off) ∧
        ∃ b2 ∈ (allocate s n).2.blocks, b2.is_allocated = true ∧ b2.off = off) := by
  have hn0 : n ≠ 0 := Nat.pos_iff_ne_zero.mp hn
  unfold allocate
  rw [if_neg hn0]
  cases hf : firstFit s.blocks n with
  | none =>
    dsimp only
    refine ⟨?_, fun _ => rfl, ?_⟩
    · exact ⟨fun _ => (firstFit_eq_none_iff s.blocks n).mp hf, fun _ => rfl⟩
    · intro hfit
      obtain ⟨b, hb, hfree, hsize⟩ := hfit
      exact absurd ⟨hfree, hsize⟩ ((firstFit_eq_none_iff s.blocks n).mp hf b hb)
  | some v =>
    obtain ⟨pre, b, suf⟩ := v
    obtain ⟨hdec, hfree, hsize, hprefail⟩ := firstFit_eq_some s.blocks n pre b suf hf
    have hbmem : b ∈ s.blocks := by rw [hdec]; exact List.mem_append_right pre (List.mem_cons_self b suf)
    dsimp only
    by_cases hsplit : (n + sizeofMemoryBlock) % W < b.size
    · rw [if_pos hsplit]
      dsimp only
      refine ⟨?_, ?_, ?_⟩
      · constructor
        · intro hc; cases hc
        · intro hall; exact absurd ⟨hfree, hsize⟩ (hall b hbmem)
      · intro hc; cases hc
      · intro _
        refine ⟨b.off, rfl, ⟨b, hbmem, hfree, hsize, rfl⟩, ⟨n, true, b.off⟩, ?_, rfl, rfl⟩
        exact List.mem_append_left _ (List.mem_append_right pre (List.mem_cons_self _ suf))
    · rw [if_neg hsplit]
      dsimp only
      refine ⟨?_, ?_, ?_⟩
      · constructor
        · intro hc; cases hc
        · intro hall; exact absurd ⟨hfree, hsize⟩ (hall b hbmem)
      · intro hc; cases hc
      · intro _
        refine ⟨b.off, rfl, ⟨b, hbmem, hfree, hsize, rfl⟩, ⟨b.size, true, b.off⟩, ?_, rfl, rfl⟩
        exact List.mem_append_right pre (List.mem_cons_self _ suf)

/-- Witness for C4 at a concrete input exercising the success branch: the
fresh 100-byte pool has a free block of length ≥ 10, so `allocate(10)` must
return a non-null pointer to a previously free fitting block, allocated
afterwards. -/
theorem allocate_oom_characterization_witness :
    (∃ b ∈ (init 100).blocks, b.is_allocated = false ∧ 10 ≤ b.size) ∧
    ∃ off, (allocate (init 100) 10).1 = .ok (some off) ∧
      (∃ b ∈ (init 100).blocks, b.is_allocated = false ∧ 10 ≤ b.size ∧ b.off = off) ∧
      ∃ b2 ∈ (allocate (init 100) 10).2.blocks, b2.is_allocated = true ∧ b2.off = off :=
  have hfit : ∃ b ∈ (init 100).blocks, b.is_allocated = false ∧ 10 ≤ b.size :=
    ⟨⟨100, false, 0⟩, by decide, rfl, by decide⟩
  ⟨hfit, (allocate_oom_characterization (init 100) 10 (by decide)).2.2 hfit⟩

/-- C2 (counterexample): in the reachable state after `allocate(30)`,
`allocate(30)`, `deallocate(ptr at 0)` on a 200-byte pool, the call
`allocate(2)` splits the first block `B` (at index 0) but the new free block
`B' = ⟨28, false, 2⟩` is appended at index 3, not placed immediately after
`B` at index 1 — refuting the claimed insertion position. -/
theorem allocate_split_not_inserted_after_found :
    ((allocate (deallocate (allocate (allocate (init 200) 30).2 30).2 (some 0)) 2).2.blocks =
      [⟨2, true, 0⟩, ⟨30, true, 30⟩, ⟨140, false, 60⟩, ⟨28, false, 2⟩]) ∧
    ((allocate (deallocate (allocate (allocate (init 200) 30).2 30).2 (some 0)) 2).2.blocks[1]? ≠
      some ⟨28, false, 2⟩) := by
  decide

/-- C2 (amended): when `allocate(n)` finds the first-fit free block `B` with
`B.len - n` above the split threshold, it shrinks `B` in place to length `n`
(marking it allocated) and appends the new free block
`B' = ⟨B.len - n, free, B.off + n⟩` by `push_back` at the END of the block
vector — which coincides with "immediately after `B`" only when `B` was the
last block. -/
theorem allocate_split_appends_at_end (s : State) (n : Nat) (pre : List MemoryBlock)
    (b : MemoryBlock) (suf : List MemoryBlock)
    (hn : 0 < n) (hdec : s.blocks = pre ++ b :: suf)
    (hprefail : ∀ a ∈ pre, ¬(a.is_allocated = false ∧ n ≤ a.size))
    (hfree : b.is_allocated = false)
    (hthresh : n + sizeofMemoryBlock < b.size) (hW : b.size < W) :
    (allocate s n).1 = .ok (some b.off) ∧
    (allocate s n).2.blocks =
      (pre ++ ⟨n, true, b.off⟩ :: suf) ++ [⟨b.size - n, false, b.off + n⟩] ∧
    (allocate s n).2.used_size = (s.used_size + n) % W := by
  have hsize : n ≤ b.size := le_of_lt (lt_of_le_of_lt (Nat.le_add_right n _) hthresh)
  have hf : firstFit s.blocks n = some (pre, b, suf) := by
    rw [hdec]; exact firstFit_of_decomp pre b suf n hprefail hfree hsize
  have hmod : (n + sizeofMemoryBlock) % W = n + sizeofMemoryBlock :=
    Nat.mod_eq_of_lt (lt_trans hthresh hW)
  have hn0 : n ≠ 0 := Nat.pos_iff_ne_zero.mp hn
  unfold allocate
  rw [if_neg hn0, hf]
  dsimp only
  rw [hmod, if_pos hthresh]
  exact ⟨rfl, rfl, rfl⟩

/-- Witness for the amended C2 at a concrete input: `allocate(10)` on the
fresh 100-byte pool splits its single block and appends the remainder. -/
theorem allocate_split_appends_at_end_witness :
    (allocate (init 100) 10).1 = .ok (some 0) ∧
    (allocate (init 100) 10).2.blocks =
      ([] ++ ⟨10, true, 0⟩ :: []) ++ [⟨100 - 10, false, 0 + 10⟩] ∧
    (allocate (init 100) 10).2.used_size = (0 + 10) % W :=
  allocate_split_appends_at_end (init 100) 10 [] ⟨100, false, 0⟩ []
    (by decide) rfl (by decide) rfl (by decide) (by decide)

/-- C3 (counterexample): the reachable trace `allocate(30)`, `allocate(30)`,
`deallocate(ptr at 0)`, `deallocate(ptr at 30)` on a 200-byte pool — all
valid-usage operations — ends with blocks `[⟨30, free⟩, ⟨170, free⟩]`: a free
block whose traversal-order successor is also free, refuting the relaxed
no-two-adjacent-free invariant. -/
theorem coalescing_invariant_violated :
    ((deallocate (deallocate (allocate (allocate (init 200) 30).2 30).2 (some 0))
        (some 30)).blocks = [⟨30, false, 0⟩, ⟨170, false, 30⟩]) ∧
    ¬ noFreeFreeSucc
      (deallocate (deallocate (allocate (allocate (init 200) 30).2 30).2 (some 0))
        (some 30)).blocks := by
  decide

/-- C3 (amended): what forward-only coalescing actually guarantees per step:
when `deallocate` matches block `b` (first match in traversal order) and
`b`'s immediate successor is free, the two are merged into a single free
block in `b`'s position; the global no-two-adjacent-free invariant itself
does not hold. -/
theorem deallocate_forward_coalesce (s : State) (p : Nat) (pre : List MemoryBlock)
    (b next : MemoryBlock) (suf : List MemoryBlock)
    (hdec : s.blocks = pre ++ b :: next :: suf)
    (hpre : ∀ a ∈ pre, a.off ≠ p) (hb : b.off = p)
    (hnext : next.is_allocated = false) :
    (deallocate s (some p)).blocks =
      pre ++ ⟨(b.size + next.size) % W, false, b.off⟩ :: suf ∧
    (deallocate s (some p)).used_size = wrapSub s.used_size b.size := by
  have hgo := deallocGo_of_decomp pre b (next :: suf) p hpre hb
  unfold deallocate
  dsimp only
  rw [hdec, hgo]
  refine ⟨?_, rfl⟩
  have hfm : freeAndMerge b (next :: suf) =
      ⟨(b.size + next.size) % W, false, b.off⟩ :: suf := by
    simp [freeAndMerge, hnext]
  dsimp only
  rw [hfm]

/-- Witness for the amended C3 at a concrete input: freeing the allocated
block at offset 0 merges it with the free 70-byte successor. -/
theorem deallocate_forward_coalesce_witness :
    (deallocate ⟨[⟨30, true, 0⟩, ⟨70, false, 30⟩], 100, 30⟩ (some 0)).blocks =
      [] ++ ⟨(30 + 70) % W, false, 0⟩ :: [] ∧
    (deallocate ⟨[⟨30, true, 0⟩, ⟨70, false, 30⟩], 100, 30⟩ (some 0)).used_size =
      wrapSub 30 30 :=
  deallocate_forward_coalesce ⟨[⟨30, true, 0⟩, ⟨70, false, 30⟩], 100, 30⟩ 0
    [] ⟨30, true, 0⟩ ⟨70, false, 30⟩ [] rfl (by decide) rfl rfl

/-- C1 (code evaluation at the failing input): the valid-usage trace
`allocate(30) → p0`, `allocate(30) → p1`, `deallocate(p0)`, `allocate(2) → p2`
(returns offset 0 again), `deallocate(p1)`, `deallocate(p2)` on a 200-byte
pool ends with blocks `[⟨172, free, 0⟩, ⟨28, free, 2⟩]`, whose ranges
`[0, 172)` and `[2, 30)` overlap: the partition invariant is violated.  The
cause is `deallocate`'s merge with the *vector* successor, which after a
split-`push_back` need not be the *address* successor. -/
theorem partition_invariant_violated :
    ((deallocate (deallocate (allocate (deallocate (allocate (allocate
        (init 200) 30).2 30).2 (some 0)) 2).2 (some 30)) (some 0)).blocks =
      [⟨172, false, 0⟩, ⟨28, false, 2⟩]) ∧
    ¬ partitionInvariant (deallocate (deallocate (allocate (deallocate (allocate (allocate
        (init 200) 30).2 30).2 (some 0)) 2).2 (some 30)) (some 0)) := by
  decide

/-- C7 (code evaluation at the failing input): continuing the C1 trace with
`allocate(2) → p3`, the allocator state has `used_size = 2`; then
`allocate(170)` succeeds returning the pointer at offset 2, but immediately
deallocating that same pointer leaves `used_size = 144`, not 2 — `deallocate`
finds a stale free block with the same data pointer first and subtracts its
size 28 instead of 170. -/
theorem allocate_deallocate_used_not_restored :
    ((allocate (deallocate (deallocate (allocate (deallocate (allocate (allocate
        (init 200) 30).2 30).2 (some 0)) 2).2 (some 30)) (some 0)) 2).2.used_size = 2) ∧
    ((allocate (allocate (deallocate (deallocate (allocate (deallocate (allocate (allocate
        (init 200) 30).2 30).2 (some 0)) 2).2 (some 30)) (some 0)) 2).2 170).1 =
      Except.ok (some 2)) ∧
    ((deallocate (allocate (allocate (deallocate (deallocate (allocate (deallocate (allocate
        (allocate (init 200) 30).2 30).2 (some 0)) 2).2 (some 30)) (some 0)) 2).2 170).2
        (some 2)).used_size = 144) := by
  decide

/-! ## The fragmentation metric -/

/-- On in-range operands, C++ unsigned subtraction is true subtraction. -/
theorem wrapSub_eq_sub (a b : Nat) (hba : b ≤ a) (ha : a < W) : wrapSub a b = a - b := by
  unfold wrapSub
  have hb : b < W := lt_of_le_of_lt hba ha
  rw [Nat.mod_eq_of_lt hb]
  have h1 : a + (W - b) = W + (a - b) := by omega
  rw [h1, Nat.add_mod_left]
  exact Nat.mod_eq_of_lt (by omega)

/-- The running maximum over free blocks is bounded by the accumulator or the
total free byte count. -/
theorem largestFreeAux_le (acc : Nat) (bs : List MemoryBlock) :
    largestFreeAux acc bs ≤ max acc (sumFree bs) := by
  induction bs generalizing acc with
  | nil => simp [largestFreeAux, sumFree]
  | cons b rest ih =>
    by_cases h : b.is_allocated = false ∧ acc < b.size
    · have step : largestFreeAux acc (b :: rest) = largestFreeAux b.size rest := by
        simp [largestFreeAux, if_pos h]
      have hb := ih b.size
      have hsum : sumFree (b :: rest) = b.size + sumFree rest := by
        simp [sumFree, h.1]
      rw [step, hsum]
      omega
    · have step : largestFreeAux acc (b :: rest) = largestFreeAux acc rest := by
        simp [largestFreeAux, if_neg h]
      have hb := ih acc
      have hsum : sumFree (b :: rest) =
          (if b.is_allocated = false then b.size else 0) + sumFree rest := rfl
      rw [step, hsum]
      exact le_trans hb (max_le_max (Nat.le_refl acc) (Nat.le_add_left _ _))

/-- The largest free block is no larger than the total free byte count. -/
theorem largestFree_le_sumFree (bs : List MemoryBlock) : largestFree bs ≤ sumFree bs := by
  have h := largestFreeAux_le 0 bs
  simpa [largestFree] using h

/-- C5: `fragmentation_ratio` returns `0` when the free byte count
`F = C - used` is zero, and `1 - L/F` otherwise, where `L` is the largest
single free block's length; the result lies in `[0, 1]`.  The hypotheses say
that the pool capacity is a representable `size_t` and that the accounting is
consistent (`used` plus the free bytes present in the block list fit in the
capacity) — both hold in every state the C++ object reaches under valid
usage. -/
theorem fragmentation_ratio_spec (s : State)
    (hWcap : s.total_size < W)
    (hacct : s.used_size + sumFree s.blocks ≤ s.total_size) :
    ( fragmentation_ratio s =
      if s.total_size - s.used_size = 0 then 0
      else 1 - (largestFree s.blocks : ℚ) / ((s.total_size - s.used_size : Nat) : ℚ)) ∧
    0 ≤ fragmentation_ratio s ∧ fragmentation_ratio s ≤ 1 := by
  have hba : s.used_size ≤ s.total_size := le_trans (Nat.le_add_right _ _) hacct
  have hws : wrapSub s.total_size s.used_size = s.total_size - s.used_size :=
    wrapSub_eq_sub _ _ hba hWcap
  have hL : largestFree s.blocks ≤ s.total_size - s.used_size := by
    have h := largestFree_le_sumFree s.blocks
    omega
  unfold fragmentation_ratio
  dsimp only
  rw [hws]
  by_cases hF0 : s.total_size - s.used_size = 0
  · rw [if_neg (by omega), if_pos hF0]
    norm_num
  · have hFpos : 0 < s.total_size - s.used_size := Nat.pos_of_ne_zero hF0
    rw [if_pos hFpos, if_neg hF0]
    have hFq : (0 : ℚ) < ((s.total_size - s.used_size : Nat) : ℚ) := by
      exact_mod_cast hFpos
    have hLq : (largestFree s.blocks : ℚ) ≤ ((s.total_size - s.used_size : Nat) : ℚ) := by
      exact_mod_cast hL
    have hdiv1 : (largestFree s.blocks : ℚ) / ((s.total_size - s.used_size : Nat) : ℚ) ≤ 1 :=
      (div_le_one hFq).mpr hLq
    have hdiv0 : (0 : ℚ) ≤ (largestFree s.blocks : ℚ) / ((s.total_size - s.used_size : Nat) : ℚ) :=
      div_nonneg (by positivity) (le_of_lt hFq)
    refine ⟨rfl, ?_, ?_⟩ <;> linarith

/-- Witness for C5 at a concrete input: the fresh 100-byte pool, whose sole
free block spans everything, giving ratio `0`. -/
theorem fragmentation_ratio_spec_witness :
    ( fragmentation_ratio (init 100) =
      if (init 100).total_size - (init 100).used_size = 0 then 0
      else 1 - (largestFree (init 100).blocks : ℚ) /
        (((init 100).total_size - (init 100).used_size : Nat) : ℚ)) ∧
    0 ≤ fragmentation_ratio (init 100) ∧ fragmentation_ratio (init 100) ≤ 1 :=
  fragmentation_ratio_spec (init 100) (by decide) (by decide)

end MemoryPool

namespace DeviceDriver

/-- A pending I/O request (`DeviceDriver::DeviceRequest`): operation string
and data size.  The C++ struct also captures
`std::chrono::steady_clock::now()` at construction; real time is outside the
model and none of the claims constrain it, so the timestamp field is
elided. -/
structure DeviceRequest where
  operation : String
  data_size : Nat
  deriving DecidableEq, Repr

/-- `DeviceDriver::MAX_QUEUE_SIZE`. -/
def MAX_QUEUE_SIZE : Nat := 100

/-- `DeviceDriver::submit_request`: reject with `false` when the queue
already holds `MAX_QUEUE_SIZE` or more requests (`request_queue.size() >=
MAX_QUEUE_SIZE`), otherwise emplace the new request at the back of the FIFO
and return `true`.  The queue is modelled front-first as a list; the mutex
acquisition and `cv.notify_one()` have no effect on the queue contents. -/
def submit_request (q : List DeviceRequest) (operation : String) (data_size : Nat) :
    Bool × List DeviceRequest :=
  if MAX_QUEUE_SIZE ≤ q.length then (false, q)
  else (true, q ++ [⟨operation, data_size⟩])

/-- Fold a batch of submissions through `submit_request`, collecting each
call's Boolean result in order. -/
def submitAll (q : List DeviceRequest) : List (String × Nat) → List Bool × List DeviceRequest
  | [] => ([], q)
  | r :: rest =>
    let out := submit_request q r.1 r.2
    let next := submitAll out.2 rest
    (out.1 :: next.1, next.2)

/-- A batch that fits under the capacity succeeds throughout and grows the
queue by exactly its length. -/
theorem submitAll_success (reqs : List (String × Nat)) (q : List DeviceRequest)
    (h : q.length + reqs.length ≤ MAX_QUEUE_SIZE) :
    (submitAll q reqs).1 = List.replicate reqs.length true ∧
    (submitAll q reqs).2.length = q.length + reqs.length := by
  induction reqs generalizing q with
  | nil => simp [submitAll]
  | cons r rest ih =>
    have hlt : q.length < MAX_QUEUE_SIZE := by
      simp only [List.length_cons] at h
      omega
    have hsub : submit_request q r.1 r.2 = (true, q ++ [⟨r.1, r.2⟩]) := by
      unfold submit_request
      rw [if_neg (by omega)]
    have hlen : (q ++ [(⟨r.1, r.2⟩ : DeviceRequest)]).length = q.length + 1 := by simp
    obtain ⟨h1, h2⟩ := ih (q ++ [⟨r.1, r.2⟩]) (by simp only [List.length_cons] at h; omega)
    refine ⟨?_, ?_⟩
    · simp only [submitAll, hsub, h1, List.length_cons, List.replicate]
    · simp only [submitAll, hsub, h2, List.length_cons, hlen]
      omega

/-- C6: `submit_request` appends exactly one request at the back and returns
`true` when the queue holds fewer than `Q = 100` requests, and returns
`false` leaving the queue unchanged when it holds `Q` or more; hence from the
empty queue any `Q` consecutive submissions all succeed and a following one
is rejected. -/
theorem submit_request_spec (q : List DeviceRequest) (op : String) (n : Nat) :
    (q.length < MAX_QUEUE_SIZE → submit_request q op n = (true, q ++ [⟨op, n⟩])) ∧
    (MAX_QUEUE_SIZE ≤ q.length → submit_request q op n = (false, q)) ∧
    (∀ reqs : List (String × Nat), reqs.length = MAX_QUEUE_SIZE →
      (submitAll [] reqs).1 = List.replicate MAX_QUEUE_SIZE true ∧
      (submit_request (submitAll [] reqs).2 op n).1 = false) := by
  refine ⟨?_, ?_, ?_⟩
  · intro h
    unfold submit_request
    rw [if_neg (by omega)]
  · intro h
    unfold submit_request
    rw [if_pos h]
  · intro reqs hlen
    obtain ⟨h1, h2⟩ := submitAll_success reqs [] (by simp [hlen])
    refine ⟨by rw [← hlen]; exact h1, ?_⟩
    unfold submit_request
    rw [if_pos (by rw [h2]; simp [hlen])]

/-- Witness for C6 at concrete inputs: one submission to the empty queue
succeeds, a batch of 100 zero-size writes all succeed, and the 101st
submission is rejected. -/
theorem submit_request_spec_witness :
    submit_request [] "read" 512 = (true, [] ++ [⟨"read", 512⟩]) ∧
    (submitAll [] (List.replicate 100 ("write", 0))).1 = List.replicate MAX_QUEUE_SIZE true ∧
    (submit_request (submitAll [] (List.replicate 100 ("write", 0))).2 "write" 0).1 = false := by
  refine ⟨(submit_request_spec [] "read" 512).1 (by decide), ?_, ?_⟩
  · exact ((submit_request_spec [] "write" 0).2.2 (List.replicate 100 ("write", 0))
      (by simp [MAX_QUEUE_SIZE])).1
  · exact ((submit_request_spec [] "write" 0).2.2 (List.replicate 100 ("write", 0))
      (by simp [MAX_QUEUE_SIZE])).2

end DeviceDriver
